import Mathlib

/-!
Shallow embedding of `src/scripts/04_generate_dashboard_data.py`, the
aggregation engine of the davis.food repository, together with proofs of
the specified properties of its calculators.

Modelling conventions:
* Python dict fields that may be absent are `Option` fields.  String
  fields that the script always reads with a `""` default
  (`get(..., '')` in the source) are plain `String`, with the absent key
  represented by `""`.
* Counters are `Int`; food scores and averages are `ℚ`.  Python `round`
  (half-to-even) is modelled exactly on `ℚ` by `roundHalfEvenQ`.
* Python `sorted` / `list.sort` are stable sorts; they are modelled by
  `List.insertionSort`, which is stable for a total preorder.  A sort
  with `reverse=True` is modelled by sorting with the flipped key
  comparison, which is extensionally the same stable descending sort.
* Calendar-date strings (`datetime.fromtimestamp(ts).strftime(...)`)
  depend on the host timezone; the embedded records keep the raw
  `timestamp` and omit the derived date string, which no verified
  property concerns.
-/

/-- FoodItem record (one scored food inside a review).  `name` models
`food.get('name', ...)` with the absent key read as the empty string;
`score` is the optional numeric rating; `category` the optional tag. -/
structure FoodItem where
  name : String := ""
  score : Option ℚ := none
  category : Option String := none
  deriving DecidableEq, Repr

/-- Stats sub-record of a review or a raw post (`review.get('stats', {})`);
each counter may be absent and is read with a `0` default everywhere. -/
structure Stats where
  diggCount : Option Int := none
  playCount : Option Int := none
  commentCount : Option Int := none
  shareCount : Option Int := none
  deriving DecidableEq, Repr

/-- Review record, one reviewed video. -/
structure Review where
  post_id : Option String := none
  create_time : Option Int := none
  day_number : Option Int := none
  description : String := ""
  stats : Stats := {}
  foods : List FoodItem := []
  needs_review : Bool := false
  deriving DecidableEq, Repr

/-- Video sub-record of a raw post, with thumbnail URLs read with a `""`
default (`video_data.get('cover', '')`). -/
structure VideoMeta where
  cover : String := ""
  dynamicCover : String := ""
  deriving DecidableEq, Repr

/-- Raw platform post record, used only by the latest-review lookup. -/
structure Post where
  id : Option String := none
  video : VideoMeta := {}
  stats : Stats := {}
  deriving DecidableEq, Repr

/-- Counter accessors modelling `stats.get('diggCount', 0)` and friends. -/
def diggOf (r : Review) : Int := r.stats.diggCount.getD 0

def playOf (r : Review) : Int := r.stats.playCount.getD 0

def commentOf (r : Review) : Int := r.stats.commentCount.getD 0

def shareOf (r : Review) : Int := r.stats.shareCount.getD 0

/-- Lowercasing a string character by character, modelling Python
`str.lower()` on the ASCII text the script matches against. -/
def lowerStr (s : String) : String := String.mk (s.data.map Char.toLower)

/-- Substring containment on character lists: `containsList needle hay`
holds when `needle` occurs contiguously inside `hay`; models the Python
`in` operator on strings. -/
def containsList (needle : List Char) : List Char → Bool
  | [] => needle.isEmpty
  | c :: rest => needle.isPrefixOf (c :: rest) || containsList needle rest

/-- String-level substring containment (`needle in hay` in Python). -/
def containsSubstrStr (hay needle : String) : Bool :=
  containsList needle.data hay.data

/-- The §4.1 marker test from the source: the lowercased description
contains `texas roadhouse` or `texasroadhouse`. -/
def isTexasRoadhouse (description : String) : Bool :=
  let d := lowerStr description
  containsSubstrStr d "texas roadhouse" || containsSubstrStr d "texasroadhouse"

/-- A review survives the school-lunch content filter when its
description does not contain the marker phrase. -/
def keepLunchB (r : Review) : Bool := !(isTexasRoadhouse r.description)

/-- Source `sentence_case`: empty stays empty, single character is
uppercased, otherwise first character upper and remainder lower. -/
def sentence_case (s : String) : String :=
  match s.data with
  | [] => ""
  | [c] => String.mk [c.toUpper]
  | c :: rest => String.mk (c.toUpper :: rest.map Char.toLower)

/-- The ad-hoc capitalisation used in `prepare_posts_table`
(`name[0].upper() + name[1:]`): first character uppercased, remainder
kept verbatim (not lowercased). -/
def capFirst (s : String) : String :=
  match s.data with
  | [] => ""
  | c :: rest => String.mk (c.toUpper :: rest)

/-- Rounding of a rational to the nearest integer, halves to even;
models Python `round` (whose float arguments are exact here). -/
def roundHalfEvenQ (q : ℚ) : ℤ :=
  if q - ⌊q⌋ < 1/2 then ⌊q⌋
  else if 1/2 < q - ⌊q⌋ then ⌊q⌋ + 1
  else if ⌊q⌋ % 2 = 0 then ⌊q⌋ else ⌊q⌋ + 1

/-- Python `round(q, 2)`. -/
def round2 (q : ℚ) : ℚ := (roundHalfEvenQ (q * 100) : ℚ) / 100

/-- Python `round(q, 1)`. -/
def round1 (q : ℚ) : ℚ := (roundHalfEvenQ (q * 10) : ℚ) / 10

/-- Source `format_number`: `{num/1e6:.1f}M` above a million,
`{num/1e3:.0f}K` above a thousand, else the literal decimal string.
The float `:.1f` / `:.0f` renderings are modelled by exact half-to-even
decimal rounding, which agrees with CPython on every decimally
representable half (in particular on all the specified values). -/
def roundHalfEvenDiv (n d : Nat) : Nat :=
  let q := n / d
  let r := n % d
  if 2 * r < d then q
  else if d < 2 * r then q + 1
  else if q % 2 = 0 then q else q + 1

def format_number (num : Int) : String :=
  if 1000000 ≤ num then
    let t := roundHalfEvenDiv num.toNat 100000
    toString (t / 10) ++ "." ++ toString (t % 10) ++ "M"
  else if 1000 ≤ num then
    toString (roundHalfEvenDiv num.toNat 1000) ++ "K"
  else
    toString num

/-- Effective chronological key: `create_time` read with a `0` default
(this also models the `x['timestamp'] or 0` sort keys, since Python
`or 0` sends both `None` and `0` to `0`). -/
def keyCT (r : Review) : Int := r.create_time.getD 0

/-- Truthiness of `r.get('create_time')`: present and non-zero. -/
def truthyCT (r : Review) : Bool := keyCT r != 0

/-- Ascending chronological comparison on reviews. -/
def reviewLe (a b : Review) : Prop := keyCT a ≤ keyCT b

instance : DecidableRel reviewLe :=
  fun a b => inferInstanceAs (Decidable (keyCT a ≤ keyCT b))

instance : IsTotal Review reviewLe := ⟨fun a b => le_total (keyCT a) (keyCT b)⟩

instance : IsTrans Review reviewLe := ⟨fun _ _ _ h h2 => le_trans h h2⟩

/-- Descending chronological comparison (stable `reverse=True` sort). -/
def reviewGe (a b : Review) : Prop := keyCT b ≤ keyCT a

instance : DecidableRel reviewGe :=
  fun a b => inferInstanceAs (Decidable (keyCT b ≤ keyCT a))

instance : IsTotal Review reviewGe := ⟨fun a b => le_total (keyCT b) (keyCT a)⟩

instance : IsTrans Review reviewGe := ⟨fun _ _ _ h h2 => le_trans h2 h⟩

/-- One point of the cumulative time series (§4.4); the derived calendar
date string is omitted (timezone dependent), the raw timestamp kept. -/
structure TimePoint where
  timestamp : Int
  day_number : Option Int
  cumulative_likes : Int
  cumulative_views : Int
  cumulative_comments : Int
  cumulative_shares : Int
  deriving DecidableEq, Repr

/-- The accumulation loop of `calculate_cumulative_stats`, carrying the
four running sums. -/
def buildPoints (cl cv cc cs : Int) : List Review → List TimePoint
  | [] => []
  | r :: rest =>
    let cl' := cl + diggOf r
    let cv' := cv + playOf r
    let cc' := cc + commentOf r
    let cs' := cs + shareOf r
    { timestamp := keyCT r, day_number := r.day_number,
      cumulative_likes := cl', cumulative_views := cv',
      cumulative_comments := cc', cumulative_shares := cs' }
      :: buildPoints cl' cv' cc' cs' rest

/-- Source `calculate_cumulative_stats`: keep reviews with truthy
`create_time`, stable-sort ascending by it, accumulate the counters. -/
def calculate_cumulative_stats (reviews : List Review) : List TimePoint :=
  buildPoints 0 0 0 0 (List.insertionSort reviewLe (reviews.filter truthyCT))

/-- Per-category summary entry of `calculate_category_stats`. -/
structure CatStat where
  average_rating : ℚ
  count : ℕ
  min : ℚ
  max : ℚ
  deriving DecidableEq, Repr

/-- Python `min` over a nonempty score list (0 on the unreachable empty
case). -/
def minQ : List ℚ → ℚ
  | [] => 0
  | a :: t => t.foldl min a

/-- Python `max` over a nonempty score list. -/
def maxQ : List ℚ → ℚ
  | [] => 0
  | a :: t => t.foldl max a

/-- Append a score under a category key, preserving dict insertion
order: an existing key keeps its position, a new key goes to the end. -/
def addScore (acc : List (String × List ℚ)) (cat : String) (s : ℚ) :
    List (String × List ℚ) :=
  match acc with
  | [] => [(cat, [s])]
  | (c, l) :: t =>
    if c = cat then (c, l ++ [s]) :: t else (c, l) :: addScore t cat s

/-- Inner step of the grouping loop of `calculate_category_stats`: a
scored food is appended under its category (`category` defaulting to
`other`), an unscored food is skipped. -/
def innerStep (acc2 : List (String × List ℚ)) (f : FoodItem) :
    List (String × List ℚ) :=
  match f.score with
  | none => acc2
  | some s => addScore acc2 (f.category.getD "other") s

/-- Outer step: fold one review's foods. -/
def outerStep (acc : List (String × List ℚ)) (r : Review) :
    List (String × List ℚ) :=
  r.foods.foldl innerStep acc

/-- The grouping loop of `calculate_category_stats`: every scored food
of every review (no content filtering) is appended under its category. -/
def collectScores (reviews : List Review) : List (String × List ℚ) :=
  reviews.foldl outerStep []

/-- Source `calculate_category_stats`. -/
def calculate_category_stats (reviews : List Review) :
    List (String × CatStat) :=
  (collectScores reviews).map fun p =>
    (p.1,
      { average_rating := round2 (p.2.sum / (p.2.length : ℚ)),
        count := p.2.length, min := minQ p.2, max := maxQ p.2 })

/-- Engagement score of `get_top_posts`: likes + comments + shares
(views excluded). -/
def engagementScore (r : Review) : Int := diggOf r + commentOf r + shareOf r

/-- Average of the non-null scores of a food list, rounded to two
places; `none` when no food is scored (`avg_rating` in the source). -/
def scoredAvg (foods : List FoodItem) : Option ℚ :=
  let scores := foods.filterMap FoodItem.score
  if scores.isEmpty then none
  else some (round2 (scores.sum / (scores.length : ℚ)))

/-- Fixed-template video URL; an absent post id is interpolated by
Python as the literal text `None`. -/
def videoUrl (pid : Option String) : String :=
  "https://www.tiktok.com/@davis_big_dawg/video/" ++ pid.getD "None"

/-- Optional video URL (`... if post_id else None`); Python truthiness
of a string id also rejects the empty string. -/
def videoUrlOpt (pid : Option String) : Option String :=
  match pid with
  | none => none
  | some s => if s = "" then none else some (videoUrl (some s))

/-- One row of the top-posts ranking (§4.5); the timezone-dependent
date string is omitted. -/
structure TopPost where
  post_id : Option String
  day_number : Option Int
  timestamp : Option Int
  engagement_score : Int
  likes : Int
  likes_formatted : String
  views : Int
  views_formatted : String
  comments : Int
  comments_formatted : String
  shares : Int
  average_rating : Option ℚ
  food_count : ℕ
  tiktok_url : Option String
  thumbnail_url : Option String
  deriving DecidableEq, Repr

/-- Row construction inside the `get_top_posts` loop. -/
def mkTopPost (r : Review) : TopPost :=
  { post_id := r.post_id
    day_number := r.day_number
    timestamp := r.create_time
    engagement_score := engagementScore r
    likes := diggOf r
    likes_formatted := format_number (diggOf r)
    views := playOf r
    views_formatted := format_number (playOf r)
    comments := commentOf r
    comments_formatted := format_number (commentOf r)
    shares := shareOf r
    average_rating := scoredAvg r.foods
    food_count := r.foods.length
    tiktok_url := videoUrlOpt r.post_id
    thumbnail_url := videoUrlOpt r.post_id }

/-- Descending engagement comparison (stable `reverse=True` sort). -/
def topGe (a b : TopPost) : Prop := b.engagement_score ≤ a.engagement_score

instance : DecidableRel topGe :=
  fun a b => inferInstanceAs (Decidable (b.engagement_score ≤ a.engagement_score))

instance : IsTotal TopPost topGe :=
  ⟨fun a b => le_total b.engagement_score a.engagement_score⟩

instance : IsTrans TopPost topGe := ⟨fun _ _ _ h h2 => le_trans h2 h⟩

/-- Source `get_top_posts`: content-filtered reviews, ranked by
engagement descending (stable), truncated to `limit`. -/
def get_top_posts (reviews : List Review) (limit : ℕ) : List TopPost :=
  (List.insertionSort topGe ((reviews.filter keepLunchB).map mkTopPost)).take limit

/-- Per-food listing entry of a posts-table row
(`category` defaulted to `unknown` here). -/
structure FoodOut where
  name : String
  score : Option ℚ
  category : String
  deriving DecidableEq, Repr

/-- One row of the posts table (§4.7); the timezone-dependent date
string is omitted.  `review_number` is `0` until assigned (the Python
dict simply lacks the key until the numbering pass). -/
structure PostRow where
  post_id : Option String
  day_number : Option Int
  timestamp : Option Int
  average_rating : Option ℚ
  food_count : ℕ
  foods : List FoodOut
  likes : Int
  views : Int
  comments : Int
  shares : Int
  tiktok_url : Option String
  needs_review : Bool
  review_number : ℕ := 0
  deriving DecidableEq, Repr

/-- The per-food listing of `prepare_posts_table`: only foods with a
truthy (non-empty) name are kept, their name capitalised with
`capFirst`, their category defaulted to `unknown`. -/
def buildFoodsOut (foods : List FoodItem) : List FoodOut :=
  (foods.filter fun f => f.name != "").map fun f =>
    { name := capFirst f.name, score := f.score,
      category := f.category.getD "unknown" }

/-- Row construction inside the `prepare_posts_table` loop. -/
def mkPostRow (r : Review) : PostRow :=
  { post_id := r.post_id
    day_number := r.day_number
    timestamp := r.create_time
    average_rating := scoredAvg r.foods
    food_count := r.foods.length
    foods := buildFoodsOut r.foods
    likes := diggOf r
    views := playOf r
    comments := commentOf r
    shares := shareOf r
    tiktok_url := videoUrlOpt r.post_id
    needs_review := r.needs_review }

/-- Effective sort key of a posts-table row (`x['timestamp'] or 0`). -/
def tsKey (p : PostRow) : Int := p.timestamp.getD 0

/-- Ascending timestamp comparison on rows. -/
def rowLe (a b : PostRow) : Prop := tsKey a ≤ tsKey b

instance : DecidableRel rowLe :=
  fun a b => inferInstanceAs (Decidable (tsKey a ≤ tsKey b))

instance : IsTotal PostRow rowLe := ⟨fun a b => le_total (tsKey a) (tsKey b)⟩

instance : IsTrans PostRow rowLe := ⟨fun _ _ _ h h2 => le_trans h h2⟩

/-- Descending timestamp comparison on rows. -/
def rowGe (a b : PostRow) : Prop := tsKey b ≤ tsKey a

instance : DecidableRel rowGe :=
  fun a b => inferInstanceAs (Decidable (tsKey b ≤ tsKey a))

instance : IsTotal PostRow rowGe := ⟨fun a b => le_total (tsKey b) (tsKey a)⟩

instance : IsTrans PostRow rowGe := ⟨fun _ _ _ h h2 => le_trans h2 h⟩

/-- Sequential review-number assignment
(`for i, post in enumerate(posts, start=1)`). -/
def assignNumbers (i : ℕ) : List PostRow → List PostRow
  | [] => []
  | p :: rest => { p with review_number := i } :: assignNumbers (i + 1) rest

/-- Source `prepare_posts_table`: filter, build rows, stable-sort
ascending by timestamp, number sequentially from 1, then stable-sort
descending for display. -/
def prepare_posts_table (reviews : List Review) : List PostRow :=
  List.insertionSort rowGe
    (assignNumbers 1
      (List.insertionSort rowLe ((reviews.filter keepLunchB).map mkPostRow)))

/-- Insertion-ordered counter increment (Python `Counter` keeps first
insertion order when iterated). -/
def addCount (acc : List (String × ℕ)) (k : String) : List (String × ℕ) :=
  match acc with
  | [] => [(k, 1)]
  | (c, n) :: t =>
    if c = k then (c, n + 1) :: t else (c, n) :: addCount t k

/-- Overall dashboard metrics record (§4.2). -/
structure OverallMetrics where
  total_reviews : ℕ
  school_lunch_reviews : ℕ
  total_food_items : ℕ
  overall_average_rating : ℚ
  favorite_category : Option String
  category_counts : List (String × ℕ)
  deriving DecidableEq, Repr

/-- Python `max(items, key=avg)`: first item attaining the maximal
average (ties keep the earliest). -/
def maxByAvg : List (String × CatStat) → Option String
  | [] => none
  | x :: t =>
    some (t.foldl
      (fun best y =>
        if best.2.average_rating < y.2.average_rating then y else best) x).1

/-- Source `calculate_overall_metrics`. -/
def calculate_overall_metrics (reviews : List Review) : OverallMetrics :=
  let school := reviews.filter keepLunchB
  let all_foods := (reviews.map Review.foods).flatten
  let all_scores := all_foods.filterMap FoodItem.score
  { total_reviews := reviews.length
    school_lunch_reviews := school.length
    total_food_items := all_foods.length
    overall_average_rating :=
      if all_scores.isEmpty then 0
      else round2 (all_scores.sum / (all_scores.length : ℚ))
    favorite_category := maxByAvg (calculate_category_stats reviews)
    category_counts :=
      all_foods.foldl (fun acc f => addCount acc (f.category.getD "other")) [] }

/-- The hard-coded post identifier excluded by `get_latest_review`. -/
def texasPostId : String := "7556759729863724301"

/-- The identifier-based filter of `get_latest_review`
(`r.get('post_id') != '7556...'`; note it is not the description-based
marker test used by the other calculators). -/
def keepIdB (r : Review) : Bool := r.post_id != some texasPostId

/-- Engagement block of the latest-review projection. -/
structure Engagement where
  likes : Int
  comments : Int
  shares : Int
  views : Int
  likes_formatted : String
  comments_formatted : String
  shares_formatted : String
  views_formatted : String
  deriving DecidableEq, Repr

/-- The zero-filled engagement block used when no matching post is
found (hard-coded literal `0` strings in the source). -/
def zeroEngagement : Engagement :=
  { likes := 0, comments := 0, shares := 0, views := 0,
    likes_formatted := "0", comments_formatted := "0",
    shares_formatted := "0", views_formatted := "0" }

/-- Engagement block built from a matching raw post. -/
def engagementOfPost (p : Post) : Engagement :=
  { likes := p.stats.diggCount.getD 0
    comments := p.stats.commentCount.getD 0
    shares := p.stats.shareCount.getD 0
    views := p.stats.playCount.getD 0
    likes_formatted := format_number (p.stats.diggCount.getD 0)
    comments_formatted := format_number (p.stats.commentCount.getD 0)
    shares_formatted := format_number (p.stats.shareCount.getD 0)
    views_formatted := format_number (p.stats.playCount.getD 0) }

/-- Output record of `get_latest_review` (§4.9); the timezone-dependent
date string is omitted. -/
structure LatestOut where
  post_id : Option String
  day_number : Option Int
  review_number : Option ℕ
  foods : List FoodItem
  average_rating : ℚ
  thumbnail_url : Option String
  tiktok_url : String
  engagement : Engagement
  deriving DecidableEq, Repr

/-- The identifier-filtered review list of `get_latest_review`. -/
def latestFiltered (reviews : List Review) : List Review :=
  reviews.filter keepIdB

/-- The review the projector selects: head of the stable descending
sort by `create_time` (missing read as `0`) of the filtered list. -/
def latestOf (reviews : List Review) : Option Review :=
  (List.insertionSort reviewGe (latestFiltered reviews)).head?

/-- Source `get_latest_review`.  Returns `none` for the empty filtered
set (the source returns `{}`). -/
def get_latest_review (reviews : List Review) (posts : List Post) :
    Option LatestOut :=
  match latestOf reviews with
  | none => none
  | some latest =>
    let chrono := List.insertionSort reviewLe (latestFiltered reviews)
    let pid := latest.post_id
    let review_number := (chrono.findIdx? fun r => r.post_id == pid).map (· + 1)
    let found := posts.find? fun p => p.id == pid
    let thumbnail_url := found.map fun p =>
      if p.video.cover = "" then p.video.dynamicCover else p.video.cover
    let engagement := match found with
      | none => zeroEngagement
      | some p => engagementOfPost p
    let avg : ℚ :=
      if latest.foods.isEmpty then 0
      else ((latest.foods.map fun f => f.score.getD 0).sum : ℚ) /
        (latest.foods.length : ℚ)
    some
      { post_id := pid
        day_number := latest.day_number
        review_number := review_number
        foods := latest.foods.map fun f => { f with name := sentence_case f.name }
        average_rating := round1 avg
        thumbnail_url := thumbnail_url
        tiktok_url := videoUrl pid
        engagement := engagement }

/-- The in-place food-name mutation the projector performs on the
selected review. -/
def mutateFoodNames (r : Review) : Review :=
  { r with foods := r.foods.map fun f => { f with name := sentence_case f.name } }

/-- Rewrite the first occurrence of the review object `latest` in the
source list.  CPython mutates `sorted_reviews[0]` in place; because the
descending sort is stable, that object is the first review in input
order attaining the maximal key, i.e. the first list entry equal to
`latest`. -/
def setFirstEq (latest : Review) : List Review → List Review
  | [] => []
  | r :: rest =>
    if r = latest then mutateFoodNames r :: rest
    else r :: setFirstEq latest rest

/-- Net effect of running the whole pipeline on the source review list:
`get_latest_review` runs last and rewrites the food names of the single
selected review in place; every other calculator only reads. -/
def reviewsAfterPipeline (reviews : List Review) : List Review :=
  match latestOf reviews with
  | none => reviews
  | some latest => setFirstEq latest reviews

/-! ### Properties -/

/-- Half-even rounding error bound: the rounded multiple of `d` is
within `d / 2` of `n` (stated with doubled differences). -/
theorem roundHalfEvenDiv_err_1000 (n : ℕ) :
    2 * ((roundHalfEvenDiv n 1000 : ℤ) * 1000 - n) ≤ 1000 ∧
    2 * ((n : ℤ) - (roundHalfEvenDiv n 1000 : ℤ) * 1000) ≤ 1000 := by
  have h1 : 1000 * (n / 1000) + n % 1000 = n := Nat.div_add_mod n 1000
  have h2 : n % 1000 < 1000 := Nat.mod_lt n (by norm_num)
  unfold roundHalfEvenDiv
  dsimp only
  split_ifs <;> push_cast <;> omega

theorem roundHalfEvenDiv_err_100000 (n : ℕ) :
    2 * ((roundHalfEvenDiv n 100000 : ℤ) * 100000 - n) ≤ 100000 ∧
    2 * ((n : ℤ) - (roundHalfEvenDiv n 100000 : ℤ) * 100000) ≤ 100000 := by
  have h1 : 100000 * (n / 100000) + n % 100000 = n := Nat.div_add_mod n 100000
  have h2 : n % 100000 < 100000 := Nat.mod_lt n (by norm_num)
  unfold roundHalfEvenDiv
  dsimp only
  split_ifs <;> push_cast <;> omega

/-- C8: `format_number` maps a non-negative integer `n` to a one-decimal
`M` string (the displayed value within 0.05 million of `n`) when
`n ≥ 1,000,000`, to an integer-rounded `K` string (the displayed value
within 500 of `n`) when `1,000 ≤ n < 1,000,000`, and to the literal
decimal string otherwise; in particular `950 ↦ "950"`, `1500 ↦ "2K"`,
`2300000 ↦ "2.3M"`. -/
theorem format_number_ranges (n : ℕ) :
    (1000000 ≤ n → ∃ a b : ℕ, b < 10 ∧
      format_number (n : ℤ) = toString a ++ "." ++ toString b ++ "M" ∧
      ((10 * a + b) * 100000 : ℤ) - n ≤ 50000 ∧
      (n : ℤ) - ((10 * a + b) * 100000 : ℤ) ≤ 50000) ∧
    (1000 ≤ n → n < 1000000 → ∃ k : ℕ,
      format_number (n : ℤ) = toString k ++ "K" ∧
      ((k : ℤ) * 1000 - n ≤ 500 ∧ (n : ℤ) - (k : ℤ) * 1000 ≤ 500)) ∧
    (n < 1000 → format_number (n : ℤ) = toString n) ∧
    format_number 950 = "950" ∧ format_number 1500 = "2K" ∧
    format_number 2300000 = "2.3M" := by
  refine ⟨?_, ?_, ?_, by decide, by decide, by decide⟩
  · intro h
    have hc : (1000000 : ℤ) ≤ (n : ℤ) := by exact_mod_cast h
    have hb := roundHalfEvenDiv_err_100000 n
    refine ⟨roundHalfEvenDiv n 100000 / 10, roundHalfEvenDiv n 100000 % 10,
      Nat.mod_lt _ (by norm_num), ?_, ?_, ?_⟩
    · unfold format_number
      rw [if_pos hc, Int.toNat_natCast]
    · omega
    · omega
  · intro h1 h2
    have hc1 : ¬ (1000000 : ℤ) ≤ (n : ℤ) := by exact_mod_cast not_le.mpr h2
    have hc2 : (1000 : ℤ) ≤ (n : ℤ) := by exact_mod_cast h1
    have hb := roundHalfEvenDiv_err_1000 n
    refine ⟨roundHalfEvenDiv n 1000, ?_, by omega, by omega⟩
    unfold format_number
    rw [if_neg hc1, if_pos hc2, Int.toNat_natCast]
  · intro h
    have hc1 : ¬ (1000000 : ℤ) ≤ (n : ℤ) := by
      exact_mod_cast not_le.mpr (lt_trans h (by norm_num))
    have hc2 : ¬ (1000 : ℤ) ≤ (n : ℤ) := by exact_mod_cast not_le.mpr h
    unfold format_number
    rw [if_neg hc1, if_neg hc2]
    rfl

/-- Witness for C8 at the three specified anchor values. -/
theorem format_number_ranges_witness :
    (∃ a b : ℕ, b < 10 ∧
      format_number ((2300000 : ℕ) : ℤ) = toString a ++ "." ++ toString b ++ "M" ∧
      ((10 * a + b) * 100000 : ℤ) - (2300000 : ℕ) ≤ 50000 ∧
      ((2300000 : ℕ) : ℤ) - ((10 * a + b) * 100000 : ℤ) ≤ 50000) ∧
    (∃ k : ℕ, format_number ((1500 : ℕ) : ℤ) = toString k ++ "K" ∧
      ((k : ℤ) * 1000 - (1500 : ℕ) ≤ 500 ∧
        ((1500 : ℕ) : ℤ) - (k : ℤ) * 1000 ≤ 500)) ∧
    format_number ((950 : ℕ) : ℤ) = toString (950 : ℕ) :=
  ⟨(format_number_ranges 2300000).1 (by norm_num),
   (format_number_ranges 1500).2.1 (by norm_num) (by norm_num),
   (format_number_ranges 950).2.2.1 (by norm_num)⟩

/-- Input exhibiting the C1 divergence: one scored food (8) and one
unscored food in the single (hence latest) review. -/
def c1Review : Review :=
  { post_id := some "p1"
    create_time := some 100
    foods := [{ name := "a", score := some 8 }, { name := "b" }] }

/-- C1: evaluation of `get_latest_review` at the failing input.  The
emitted `average_rating` is `(8 + 0) / 2 = 4`: the unscored food is
counted as a zero score and kept in the denominator, whereas the
specified mean over scored foods only would be `8`. -/
theorem get_latest_review_avg_at_failing_input :
    (get_latest_review [c1Review] []).map LatestOut.average_rating = some 4 ∧
    ((4 : ℚ) ≠ 8) := by
  constructor
  · have hl : latestOf [c1Review] = some c1Review := by rfl
    unfold get_latest_review
    rw [hl]
    norm_num [c1Review, round1, roundHalfEvenQ]
  · norm_num

/-- Stable ascending sorts of permuted row lists with pairwise distinct
effective timestamps agree. -/
theorem insertionSort_rowLe_eq_of_perm {l₁ l₂ : List PostRow} (hp : l₁.Perm l₂)
    (hd : l₁.Pairwise fun a b => tsKey a ≠ tsKey b) :
    List.insertionSort rowLe l₁ = List.insertionSort rowLe l₂ := by
  have p1 : (List.insertionSort rowLe l₁).Perm l₁ := List.perm_insertionSort _ _
  have p2 : (List.insertionSort rowLe l₂).Perm l₂ := List.perm_insertionSort _ _
  have hsymm : ∀ {x y : PostRow},
      tsKey x ≠ tsKey y → tsKey y ≠ tsKey x := fun h => h.symm
  have hd1 := (p1.pairwise_iff hsymm).2 hd
  have hd2 := ((p2.trans hp.symm).pairwise_iff hsymm).2 hd
  have hs1 : (List.insertionSort rowLe l₁).Sorted rowLe :=
    List.sorted_insertionSort rowLe l₁
  have hs2 : (List.insertionSort rowLe l₂).Sorted rowLe :=
    List.sorted_insertionSort rowLe l₂
  have hst1 : (List.insertionSort rowLe l₁).Sorted
      fun a b => tsKey a < tsKey b :=
    (hs1.and hd1).imp fun h => lt_of_le_of_ne h.1 h.2
  have hst2 : (List.insertionSort rowLe l₂).Sorted
      fun a b => tsKey a < tsKey b :=
    (hs2.and hd2).imp fun h => lt_of_le_of_ne h.1 h.2
  haveI : IsAntisymm PostRow (fun a b => tsKey a < tsKey b) :=
    ⟨fun _ _ h1 h2 => absurd (h1.trans h2) (lt_irrefl _)⟩
  exact List.eq_of_perm_of_sorted (p1.trans (hp.trans p2.symm)) hst1 hst2

/-- C2 (amended): when the surviving posts carry pairwise distinct
effective timestamps (missing read as 0), the whole posts table — and
with it every assigned `review_number` — is invariant under any
permutation of the input review array. -/
theorem prepare_posts_table_perm_invariant (l₁ l₂ : List Review)
    (hp : l₁.Perm l₂)
    (hd : (l₁.filter keepLunchB).Pairwise fun a b => keyCT a ≠ keyCT b) :
    prepare_posts_table l₁ = prepare_posts_table l₂ := by
  have hrows : ((l₁.filter keepLunchB).map mkPostRow).Perm
      ((l₂.filter keepLunchB).map mkPostRow) := (hp.filter _).map _
  have hd' : ((l₁.filter keepLunchB).map mkPostRow).Pairwise
      fun a b => tsKey a ≠ tsKey b := List.pairwise_map.mpr hd
  unfold prepare_posts_table
  rw [insertionSort_rowLe_eq_of_perm hrows hd']

/-- Reviews for the C2 witness: distinct timestamps. -/
def c2wA : Review := { post_id := some "wa", create_time := some 100 }

def c2wB : Review := { post_id := some "wb", create_time := some 200 }

/-- Witness for the amended C2 at a concrete out-of-order input pair. -/
theorem prepare_posts_table_perm_invariant_witness :
    prepare_posts_table [c2wA, c2wB] = prepare_posts_table [c2wB, c2wA] :=
  prepare_posts_table_perm_invariant [c2wA, c2wB] [c2wB, c2wA]
    (by decide) (by decide)

/-- Reviews for the C2 counterexample: equal timestamps. -/
def c2tA : Review := { post_id := some "a", create_time := some 100 }

def c2tB : Review := { post_id := some "b", create_time := some 100 }

/-- C2 counterexample: with two surviving posts sharing a timestamp,
permuting the input array swaps the review numbers, so the numbering is
not invariant under permutation as originally claimed. -/
theorem prepare_posts_table_perm_counterexample :
    ([c2tA, c2tB]).Perm [c2tB, c2tA] ∧
    ((prepare_posts_table [c2tA, c2tB]).find?
        (fun p => p.post_id == some "a")).map PostRow.review_number = some 1 ∧
    ((prepare_posts_table [c2tB, c2tA]).find?
        (fun p => p.post_id == some "a")).map PostRow.review_number = some 2 := by
  refine ⟨?_, by decide, by decide⟩
  exact List.Perm.swap _ _ _

/-- C3 (amended): the latest-review projector filters by the literal
post identifier, so the review it selects never carries that
identifier. -/
theorem get_latest_review_not_texas_id (reviews : List Review)
    (posts : List Post) (out : LatestOut)
    (h : get_latest_review reviews posts = some out) :
    out.post_id ≠ some texasPostId := by
  unfold get_latest_review at h
  cases hl : latestOf reviews with
  | none => rw [hl] at h; exact absurd h (by simp)
  | some latest =>
    rw [hl] at h
    dsimp only at h
    have hpid : out.post_id = latest.post_id := by
      cases h
      rfl
    have hsorted : latest ∈ List.insertionSort reviewGe (latestFiltered reviews) := by
      unfold latestOf at hl
      exact List.mem_of_mem_head? hl
    have hmem : latest ∈ latestFiltered reviews :=
      (List.perm_insertionSort reviewGe _).mem_iff.1 hsorted
    have hk : keepIdB latest = true := (List.mem_filter.1 hmem).2
    rw [hpid]
    simpa [keepIdB, bne_iff_ne] using hk

/-- Review whose description contains the marker phrase but whose
identifier differs from the hard-coded one. -/
def c3Review : Review :=
  { post_id := some "999"
    create_time := some 100
    description := "Davis eats at Texas Roadhouse today" }

/-- C3 counterexample: the projector happily selects a review whose
description contains the off-topic marker phrase, because its filter
tests only the literal post identifier. -/
theorem get_latest_review_marker_counterexample :
    isTexasRoadhouse c3Review.description = true ∧
    (get_latest_review [c3Review] []).map LatestOut.post_id = some (some "999") := by
  constructor
  · decide
  · rfl

/-- Plain review for the C3 witness. -/
def c3w : Review := { post_id := some "w", create_time := some 5 }

/-- Expected projector output for the C3 witness input. -/
def c3wOut : LatestOut :=
  { post_id := some "w"
    day_number := none
    review_number := some 1
    foods := []
    average_rating := 0
    thumbnail_url := none
    tiktok_url := "https://www.tiktok.com/@davis_big_dawg/video/w"
    engagement := zeroEngagement }

/-- Witness for the amended C3 at a concrete input. -/
theorem get_latest_review_not_texas_id_witness :
    c3wOut.post_id ≠ some texasPostId :=
  get_latest_review_not_texas_id [c3w] [] c3wOut (by
    have hl : latestOf [c3w] = some c3w := rfl
    unfold get_latest_review
    rw [hl]
    norm_num [c3w, c3wOut, round1, roundHalfEvenQ, videoUrl]
    rfl)

/-- A nonempty string has a first character. -/
theorem exists_head_of_ne_empty {s : String} (h : s ≠ "") :
    ∃ c cs, s.data = c :: cs := by
  cases s with
  | mk d =>
    cases d with
    | nil => exact absurd rfl h
    | cons c cs => exact ⟨c, cs, rfl⟩

/-- Membership in the numbering pass: every numbered row is an input
row with only its `review_number` field rewritten. -/
theorem mem_assignNumbers : ∀ {p : PostRow} {i : ℕ} {l : List PostRow},
    p ∈ assignNumbers i l → ∃ q ∈ l, ∃ n, p = { q with review_number := n } := by
  intro p i l
  induction l generalizing i with
  | nil => intro h; simp [assignNumbers] at h
  | cons q rest ih =>
    intro h
    rw [assignNumbers] at h
    rcases List.mem_cons.1 h with h1 | h2
    · exact ⟨q, List.mem_cons_self q rest, i, h1⟩
    · obtain ⟨q', hq', n, hn⟩ := ih h2
      exact ⟨q', List.mem_cons_of_mem q hq', n, hn⟩

/-- Membership characterisation of the posts table: every emitted row
is built (by `mkPostRow`, plus a review number) from a surviving input
review. -/
theorem mem_prepare_posts_table {reviews : List Review} {p : PostRow}
    (h : p ∈ prepare_posts_table reviews) :
    ∃ r ∈ reviews, keepLunchB r = true ∧
      ∃ n, p = { mkPostRow r with review_number := n } := by
  unfold prepare_posts_table at h
  have h1 := (List.perm_insertionSort rowGe _).mem_iff.1 h
  obtain ⟨q, hq, n, rfl⟩ := mem_assignNumbers h1
  have h2 := (List.perm_insertionSort rowLe _).mem_iff.1 hq
  obtain ⟨r, hr, rfl⟩ := List.mem_map.1 h2
  have hf := List.mem_filter.1 hr
  exact ⟨r, hf.1, hf.2, n, rfl⟩

/-- C4 (amended): every name listed in a posts-table row comes from a
non-empty food name of a surviving review, rendered by uppercasing the
first character and keeping the remaining characters verbatim (so the
remainder is not lowercased); score is passed through and category
defaulted to `unknown`. -/
theorem posts_table_food_names (reviews : List Review) (p : PostRow)
    (hp : p ∈ prepare_posts_table reviews) (fo : FoodOut)
    (hfo : fo ∈ p.foods) :
    ∃ r ∈ reviews, keepLunchB r = true ∧ ∃ f ∈ r.foods, ∃ c cs,
      f.name = String.mk (c :: cs) ∧
      fo.name = String.mk (c.toUpper :: cs) ∧
      fo.score = f.score ∧ fo.category = f.category.getD "unknown" := by
  obtain ⟨r, hr, hk, n, rfl⟩ := mem_prepare_posts_table hp
  have hby : fo ∈ buildFoodsOut r.foods := hfo
  unfold buildFoodsOut at hby
  obtain ⟨f, hf, rfl⟩ := List.mem_map.1 hby
  have hff := List.mem_filter.1 hf
  have hnm : f.name ≠ "" := by simpa [bne_iff_ne] using hff.2
  obtain ⟨c, cs, hcs⟩ := exists_head_of_ne_empty hnm
  refine ⟨r, hr, hk, f, hff.1, c, cs, ?_, ?_, rfl, rfl⟩
  · cases hn : f.name with
    | mk d => rw [hn] at hcs; simp at hcs; rw [hcs]
  · show capFirst f.name = String.mk (c.toUpper :: cs)
    unfold capFirst
    rw [hcs]

/-- Review whose food name contains interior capitals. -/
def c4Review : Review :=
  { post_id := some "c4"
    create_time := some 1
    foods := [{ name := "mac AND cheese" }] }

/-- C4 counterexample: the posts table emits `Mac AND cheese`, while
the sentence-case rendering the claim specifies (first upper, remainder
lower) is `Mac and cheese`. -/
theorem posts_table_name_counterexample :
    ((prepare_posts_table [c4Review]).map fun p => p.foods.map FoodOut.name)
        = [["Mac AND cheese"]] ∧
    sentence_case "mac AND cheese" = "Mac and cheese" ∧
    ("Mac AND cheese" : String) ≠ "Mac and cheese" := by
  refine ⟨by decide, by decide, by decide⟩

/-- Review and expected row for the C4 witness. -/
def c4w : Review :=
  { post_id := some "c4w", create_time := some 2, foods := [{ name := "pizza" }] }

def c4wRow : PostRow :=
  { post_id := some "c4w"
    day_number := none
    timestamp := some 2
    average_rating := none
    food_count := 1
    foods := [{ name := "Pizza", score := none, category := "unknown" }]
    likes := 0
    views := 0
    comments := 0
    shares := 0
    tiktok_url := some "https://www.tiktok.com/@davis_big_dawg/video/c4w"
    needs_review := false
    review_number := 1 }

/-- Witness for the amended C4 at a concrete input. -/
theorem posts_table_food_names_witness :
    ∃ r ∈ [c4w], keepLunchB r = true ∧ ∃ f ∈ r.foods, ∃ c cs,
      f.name = String.mk (c :: cs) ∧
      ({ name := "Pizza", score := none, category := "unknown" } : FoodOut).name
        = String.mk (c.toUpper :: cs) ∧
      ({ name := "Pizza", score := none, category := "unknown" } : FoodOut).score
        = f.score ∧
      ({ name := "Pizza", score := none, category := "unknown" } : FoodOut).category
        = f.category.getD "unknown" :=
  posts_table_food_names [c4w] c4wRow (by decide) _ (by decide)

/-- The accumulation loop emits one point per review. -/
theorem length_buildPoints (cl cv cc cs : Int) :
    ∀ l : List Review, (buildPoints cl cv cc cs l).length = l.length
  | [] => rfl
  | _ :: rest => by
    rw [buildPoints]
    simp [length_buildPoints _ _ _ _ rest]

/-- The emitted timestamps are the reviews' effective timestamps in
order. -/
theorem map_timestamp_buildPoints (cl cv cc cs : Int) :
    ∀ l : List Review,
      (buildPoints cl cv cc cs l).map TimePoint.timestamp = l.map keyCT
  | [] => rfl
  | r :: rest => by
    rw [buildPoints]
    simp [map_timestamp_buildPoints _ _ _ _ rest]

/-- Restricting the emitted points to one timestamp lists the matching
reviews' `day_number` passthroughs in order. -/
theorem day_filter_buildPoints (t : Int) (cl cv cc cs : Int) :
    ∀ l : List Review,
      (((buildPoints cl cv cc cs l).filter fun p => p.timestamp == t).map
          TimePoint.day_number)
        = ((l.filter fun r => keyCT r == t).map Review.day_number)
  | [] => rfl
  | r :: rest => by
    rw [buildPoints]
    rw [List.filter_cons, List.filter_cons]
    by_cases h : keyCT r == t <;>
      simp [h, day_filter_buildPoints t _ _ _ _ rest]

/-- Filtering by one timestamp commutes with the ordered insertion. -/
theorem filter_key_orderedInsert (t : Int) (a : Review) :
    ∀ L : List Review,
      ((List.orderedInsert reviewLe a L).filter fun r => keyCT r == t)
        = if keyCT a == t then a :: L.filter (fun r => keyCT r == t)
          else L.filter (fun r => keyCT r == t)
  | [] => by
    by_cases ha : keyCT a == t <;> simp [List.orderedInsert, ha, List.filter]
  | b :: L => by
    by_cases hab : reviewLe a b
    · rw [List.orderedInsert_of_le reviewLe L hab]
      by_cases ha : keyCT a == t <;> simp [List.filter_cons, ha]
    · have hins : List.orderedInsert reviewLe a (b :: L)
          = b :: List.orderedInsert reviewLe a L := by
        simp [List.orderedInsert, hab]
      rw [hins, List.filter_cons, filter_key_orderedInsert t a L,
        List.filter_cons]
      by_cases hb : keyCT b == t <;> by_cases ha : keyCT a == t
      · exact absurd (le_of_eq ((beq_iff_eq.1 ha).trans (beq_iff_eq.1 hb).symm))
          hab
      · simp [hb, ha]
      · simp [hb, ha]
      · simp [hb, ha]

/-- Filtering by one timestamp commutes with the stable ascending sort:
the reviews sharing a timestamp appear in input order. -/
theorem filter_key_insertionSort (t : Int) :
    ∀ l : List Review,
      ((List.insertionSort reviewLe l).filter fun r => keyCT r == t)
        = l.filter fun r => keyCT r == t
  | [] => rfl
  | a :: l => by
    rw [List.insertionSort, filter_key_orderedInsert t a,
      filter_key_insertionSort t l, List.filter_cons]

/-- C5 (amended): the cumulative time series has exactly one point per
review with a truthy (present and non-zero) `create_time`; the emitted
timestamps are those reviews' timestamps, sorted non-decreasingly, and
reviews sharing a timestamp keep their input order (observed through
the `day_number` passthrough). -/
theorem cumulative_series_shape (reviews : List Review) :
    (calculate_cumulative_stats reviews).length
        = (reviews.filter truthyCT).length ∧
    ((calculate_cumulative_stats reviews).map TimePoint.timestamp).Pairwise
        (· ≤ ·) ∧
    ((calculate_cumulative_stats reviews).map TimePoint.timestamp).Perm
        ((reviews.filter truthyCT).map keyCT) ∧
    ∀ t : Int,
      (((calculate_cumulative_stats reviews).filter
          fun p => p.timestamp == t).map TimePoint.day_number)
        = (((reviews.filter truthyCT).filter
          fun r => keyCT r == t).map Review.day_number) := by
  unfold calculate_cumulative_stats
  refine ⟨?_, ?_, ?_, ?_⟩
  · rw [length_buildPoints, List.length_insertionSort]
  · rw [map_timestamp_buildPoints]
    rw [List.pairwise_map]
    exact List.sorted_insertionSort reviewLe (reviews.filter truthyCT)
  · rw [map_timestamp_buildPoints]
    exact (List.perm_insertionSort reviewLe _).map keyCT
  · intro t
    rw [day_filter_buildPoints, filter_key_insertionSort]

/-- Review with a present but zero `create_time`. -/
def c5Review : Review := { post_id := some "z", create_time := some 0 }

/-- C5 counterexample: a review whose `create_time` is present with
value `0` yields no point (Python truthiness drops it), contradicting
the claim that any present `create_time`, including `0`, yields one. -/
theorem cumulative_drops_zero_timestamp :
    c5Review.create_time = some 0 ∧
    calculate_cumulative_stats [c5Review] = [] := ⟨rfl, rfl⟩

/-- Review with a named and an unnamed food. -/
def c10Review : Review :=
  { post_id := some "c10"
    create_time := some 3
    foods := [{ name := "apple" }, { name := "" }] }

/-- C10: every posts-table row counts all foods of its review in
`food_count` but lists only those with a non-empty name, so the listing
can be shorter than the count — as the concrete second conjunct shows. -/
theorem posts_table_food_count_vs_listing :
    (∀ (reviews : List Review) (p : PostRow),
      p ∈ prepare_posts_table reviews →
      ∃ r ∈ reviews, keepLunchB r = true ∧
        p.food_count = r.foods.length ∧
        p.foods.length = (r.foods.filter fun f => f.name != "").length ∧
        p.foods.length ≤ p.food_count) ∧
    ∃ p ∈ prepare_posts_table [c10Review], p.foods.length < p.food_count := by
  constructor
  · intro reviews p hp
    obtain ⟨r, hr, hk, n, rfl⟩ := mem_prepare_posts_table hp
    refine ⟨r, hr, hk, rfl, ?_, ?_⟩
    · show (buildFoodsOut r.foods).length = _
      unfold buildFoodsOut
      rw [List.length_map]
    · show (buildFoodsOut r.foods).length ≤ r.foods.length
      unfold buildFoodsOut
      rw [List.length_map]
      exact List.length_filter_le _ _
  · decide

/-- The posts-table row produced for `c10Review`. -/
def c10Row : PostRow :=
  { post_id := some "c10"
    day_number := none
    timestamp := some 3
    average_rating := none
    food_count := 2
    foods := [{ name := "Apple", score := none, category := "unknown" }]
    likes := 0
    views := 0
    comments := 0
    shares := 0
    tiktok_url := some "https://www.tiktok.com/@davis_big_dawg/video/c10"
    needs_review := false
    review_number := 1 }

/-- Witness for the universal part of C10 at a concrete input. -/
theorem posts_table_food_count_vs_listing_witness :
    ∃ r ∈ [c10Review], keepLunchB r = true ∧
      c10Row.food_count = r.foods.length ∧
      c10Row.foods.length = (r.foods.filter fun f => f.name != "").length ∧
      c10Row.foods.length ≤ c10Row.food_count :=
  posts_table_food_count_vs_listing.1 [c10Review] c10Row (by decide)

/-- Shorthand for the nonneg-counters hypothesis of one review. -/
def nonnegCounters (r : Review) : Prop :=
  0 ≤ diggOf r ∧ 0 ≤ playOf r ∧ 0 ≤ commentOf r ∧ 0 ≤ shareOf r

instance (r : Review) : Decidable (nonnegCounters r) :=
  inferInstanceAs (Decidable (_ ∧ _ ∧ _ ∧ _))

/-- The last accumulated point carries the initial values plus the
reviews' summed counters. -/
theorem getLast_buildPoints :
    ∀ (l : List Review) (cl cv cc cs : Int), l ≠ [] →
      ∃ p, (buildPoints cl cv cc cs l).getLast? = some p ∧
        p.cumulative_likes = cl + (l.map diggOf).sum ∧
        p.cumulative_views = cv + (l.map playOf).sum ∧
        p.cumulative_comments = cc + (l.map commentOf).sum ∧
        p.cumulative_shares = cs + (l.map shareOf).sum
  | [], _, _, _, _, h => absurd rfl h
  | [r], cl, cv, cc, cs, _ => by
    refine ⟨⟨keyCT r, r.day_number, cl + diggOf r, cv + playOf r,
      cc + commentOf r, cs + shareOf r⟩, rfl, ?_, ?_, ?_, ?_⟩ <;> simp
  | r :: s :: rest, cl, cv, cc, cs, _ => by
    obtain ⟨p, hp, h1, h2, h3, h4⟩ :=
      getLast_buildPoints (s :: rest) (cl + diggOf r) (cv + playOf r)
        (cc + commentOf r) (cs + shareOf r) (by simp)
    refine ⟨p, ?_, ?_, ?_, ?_, ?_⟩
    · show (buildPoints cl cv cc cs (r :: s :: rest)).getLast? = some p
      rw [buildPoints, buildPoints, List.getLast?_cons_cons]
      rw [buildPoints] at hp
      exact hp
    · rw [h1]; simp; ring
    · rw [h2]; simp; ring
    · rw [h3]; simp; ring
    · rw [h4]; simp; ring

/-- With non-negative counters, every accumulated point dominates the
initial values. -/
theorem mem_buildPoints_ge :
    ∀ (l : List Review) (cl cv cc cs : Int),
      (∀ r ∈ l, nonnegCounters r) →
      ∀ p ∈ buildPoints cl cv cc cs l,
        cl ≤ p.cumulative_likes ∧ cv ≤ p.cumulative_views ∧
        cc ≤ p.cumulative_comments ∧ cs ≤ p.cumulative_shares
  | [], _, _, _, _, _, p, hp => by simp [buildPoints] at hp
  | r :: rest, cl, cv, cc, cs, hn, p, hp => by
    obtain ⟨d1, d2, d3, d4⟩ := hn r (List.mem_cons_self r rest)
    rw [buildPoints] at hp
    rcases List.mem_cons.1 hp with h | h
    · subst h
      exact ⟨by simpa using d1, by simpa using d2, by simpa using d3,
        by simpa using d4⟩
    · obtain ⟨i1, i2, i3, i4⟩ :=
        mem_buildPoints_ge rest (cl + diggOf r) (cv + playOf r)
          (cc + commentOf r) (cs + shareOf r)
          (fun x hx => hn x (List.mem_cons_of_mem r hx)) p h
      exact ⟨by omega, by omega, by omega, by omega⟩

/-- With non-negative counters, the four running sums are pairwise
non-decreasing along the emitted points. -/
theorem pairwise_buildPoints :
    ∀ (l : List Review) (cl cv cc cs : Int),
      (∀ r ∈ l, nonnegCounters r) →
      (buildPoints cl cv cc cs l).Pairwise fun p q =>
        p.cumulative_likes ≤ q.cumulative_likes ∧
        p.cumulative_views ≤ q.cumulative_views ∧
        p.cumulative_comments ≤ q.cumulative_comments ∧
        p.cumulative_shares ≤ q.cumulative_shares
  | [], _, _, _, _, _ => List.Pairwise.nil
  | r :: rest, cl, cv, cc, cs, hn => by
    rw [buildPoints]
    refine List.Pairwise.cons ?_
      (pairwise_buildPoints rest _ _ _ _
        (fun x hx => hn x (List.mem_cons_of_mem r hx)))
    intro q hq
    exact mem_buildPoints_ge rest (cl + diggOf r) (cv + playOf r)
      (cc + commentOf r) (cs + shareOf r)
      (fun x hx => hn x (List.mem_cons_of_mem r hx)) q hq

/-- C7: with non-negative stats counters, the four running sums of the
cumulative time series are non-decreasing from point to point, and the
final point's values are the simple totals over all reviews included
in the series. -/
theorem cumulative_series_monotone_total (reviews : List Review)
    (hn : ∀ r ∈ reviews, nonnegCounters r) :
    ((calculate_cumulative_stats reviews).Pairwise fun p q =>
        p.cumulative_likes ≤ q.cumulative_likes ∧
        p.cumulative_views ≤ q.cumulative_views ∧
        p.cumulative_comments ≤ q.cumulative_comments ∧
        p.cumulative_shares ≤ q.cumulative_shares) ∧
    ∀ p, (calculate_cumulative_stats reviews).getLast? = some p →
      p.cumulative_likes = ((reviews.filter truthyCT).map diggOf).sum ∧
      p.cumulative_views = ((reviews.filter truthyCT).map playOf).sum ∧
      p.cumulative_comments = ((reviews.filter truthyCT).map commentOf).sum ∧
      p.cumulative_shares = ((reviews.filter truthyCT).map shareOf).sum := by
  have hperm := List.perm_insertionSort reviewLe (reviews.filter truthyCT)
  have hn' : ∀ r ∈ List.insertionSort reviewLe (reviews.filter truthyCT),
      nonnegCounters r :=
    fun r hr => hn r (List.mem_filter.1 (hperm.mem_iff.1 hr)).1
  constructor
  · exact pairwise_buildPoints _ 0 0 0 0 hn'
  · intro p hp
    unfold calculate_cumulative_stats at hp
    cases hs : List.insertionSort reviewLe (reviews.filter truthyCT) with
    | nil => rw [hs] at hp; simp [buildPoints] at hp
    | cons a rest =>
      obtain ⟨q, hq, e1, e2, e3, e4⟩ :=
        getLast_buildPoints (a :: rest) 0 0 0 0 (by simp)
      rw [hs] at hp
      rw [hp] at hq
      injection hq.symm with hpq
      subst hpq
      have hds : ((a :: rest).map diggOf).sum
          = ((reviews.filter truthyCT).map diggOf).sum := by
        rw [← hs]; exact (hperm.map diggOf).sum_eq
      have hps : ((a :: rest).map playOf).sum
          = ((reviews.filter truthyCT).map playOf).sum := by
        rw [← hs]; exact (hperm.map playOf).sum_eq
      have hcs : ((a :: rest).map commentOf).sum
          = ((reviews.filter truthyCT).map commentOf).sum := by
        rw [← hs]; exact (hperm.map commentOf).sum_eq
      have hss : ((a :: rest).map shareOf).sum
          = ((reviews.filter truthyCT).map shareOf).sum := by
        rw [← hs]; exact (hperm.map shareOf).sum_eq
      rw [e1, e2, e3, e4, hds, hps, hcs, hss]
      omega

/-- Reviews for the C7 witness (the concrete scenario of §8). -/
def c7a : Review :=
  { post_id := some "c7a"
    create_time := some 100
    stats := { diggCount := some 1 } }

def c7b : Review :=
  { post_id := some "c7b"
    create_time := some 200
    stats := { diggCount := some 2 } }

/-- The final point of the series for `[c7b, c7a]`. -/
def c7Last : TimePoint :=
  { timestamp := 200
    day_number := none
    cumulative_likes := 3
    cumulative_views := 0
    cumulative_comments := 0
    cumulative_shares := 0 }

/-- Witness for C7 at a concrete out-of-order input. -/
theorem cumulative_series_monotone_total_witness :
    ((calculate_cumulative_stats [c7b, c7a]).Pairwise fun p q =>
        p.cumulative_likes ≤ q.cumulative_likes ∧
        p.cumulative_views ≤ q.cumulative_views ∧
        p.cumulative_comments ≤ q.cumulative_comments ∧
        p.cumulative_shares ≤ q.cumulative_shares) ∧
    (c7Last.cumulative_likes = (([c7b, c7a].filter truthyCT).map diggOf).sum ∧
      c7Last.cumulative_views = (([c7b, c7a].filter truthyCT).map playOf).sum ∧
      c7Last.cumulative_comments
        = (([c7b, c7a].filter truthyCT).map commentOf).sum ∧
      c7Last.cumulative_shares
        = (([c7b, c7a].filter truthyCT).map shareOf).sum) := by
  have h := cumulative_series_monotone_total [c7b, c7a] (by decide)
  exact ⟨h.1, h.2 c7Last (by decide)⟩

/-- Appending a score under a key makes that key present. -/
theorem lookup_addScore_self :
    ∀ (acc : List (String × List ℚ)) (c : String) (s : ℚ),
      ((addScore acc c s).lookup c).isSome = true
  | [], c, s => by simp [addScore, List.lookup]
  | (k, l) :: t, c, s => by
    by_cases h : k = c
    · simp [addScore, h, List.lookup]
    · have hb : (c == k) = false := beq_eq_false_iff_ne.2 (Ne.symm h)
      simp [addScore, h, List.lookup, hb, lookup_addScore_self t c s]

/-- Appending a score never removes a key. -/
theorem lookup_addScore_mono :
    ∀ (acc : List (String × List ℚ)) (c c' : String) (s : ℚ),
      (acc.lookup c).isSome = true →
      ((addScore acc c' s).lookup c).isSome = true
  | [], c, c', s => by simp [List.lookup]
  | (k, l) :: t, c, c', s => by
    intro h
    by_cases hk : k = c'
    · by_cases hc : c = k
      · simp [addScore, hk, List.lookup, hc]
      · have hb : (c == k) = false := beq_eq_false_iff_ne.2 hc
        have hb2 : (c == c') = false :=
          beq_eq_false_iff_ne.2 (by rw [← hk]; exact hc)
        simp only [List.lookup, hb] at h
        simp [addScore, hk, List.lookup, hb, hb2, h]
    · by_cases hc : c = k
      · simp [addScore, hk, List.lookup, hc]
      · have hb : (c == k) = false := beq_eq_false_iff_ne.2 hc
        simp only [List.lookup, hb] at h
        simp [addScore, hk, List.lookup, hb,
          lookup_addScore_mono t c c' s h]

/-- The inner fold never removes a key. -/
theorem lookup_innerFold_mono :
    ∀ (foods : List FoodItem) (acc : List (String × List ℚ)) (c : String),
      (acc.lookup c).isSome = true →
      ((foods.foldl innerStep acc).lookup c).isSome = true
  | [], _, _, h => h
  | f :: fs, acc, c, h => by
    refine lookup_innerFold_mono fs (innerStep acc f) c ?_
    unfold innerStep
    cases f.score with
    | none => exact h
    | some s => exact lookup_addScore_mono acc c _ s h

/-- After folding a food list containing a scored food, that food's
category key is present. -/
theorem lookup_innerFold_scored :
    ∀ (foods : List FoodItem) (acc : List (String × List ℚ))
      (f : FoodItem) (s : ℚ), f ∈ foods → f.score = some s →
      ((foods.foldl innerStep acc).lookup (f.category.getD "other")).isSome
        = true
  | [], _, _, _, h, _ => absurd h (List.not_mem_nil _)
  | g :: fs, acc, f, s, hmem, hs => by
    rcases List.mem_cons.1 hmem with rfl | h
    · refine lookup_innerFold_mono fs (innerStep acc f) _ ?_
      unfold innerStep
      rw [hs]
      exact lookup_addScore_self acc _ s
    · exact lookup_innerFold_scored fs (innerStep acc g) f s h hs

/-- The outer fold never removes a key. -/
theorem lookup_outerFold_mono :
    ∀ (reviews : List Review) (acc : List (String × List ℚ)) (c : String),
      (acc.lookup c).isSome = true →
      ((reviews.foldl outerStep acc).lookup c).isSome = true
  | [], _, _, h => h
  | r :: rs, acc, c, h =>
    lookup_outerFold_mono rs (outerStep acc r) c
      (lookup_innerFold_mono r.foods acc c h)

/-- After the whole grouping fold, the category of any scored food of
any processed review is present. -/
theorem lookup_outerFold_scored :
    ∀ (reviews : List Review) (acc : List (String × List ℚ))
      (r : Review) (f : FoodItem) (s : ℚ),
      r ∈ reviews → f ∈ r.foods → f.score = some s →
      ((reviews.foldl outerStep acc).lookup (f.category.getD "other")).isSome
        = true
  | [], _, _, _, _, h, _, _ => absurd h (List.not_mem_nil _)
  | r' :: rs, acc, r, f, s, hmem, hf, hs => by
    rcases List.mem_cons.1 hmem with rfl | h
    · exact lookup_outerFold_mono rs (outerStep acc r) _
        (lookup_innerFold_scored r.foods acc f s hf hs)
    · exact lookup_outerFold_scored rs (outerStep acc r') r f s h hf hs

/-- Keys survive the per-category summarisation map. -/
theorem lookup_map_summary_isSome (g : String × List ℚ → CatStat) :
    ∀ (l : List (String × List ℚ)) (c : String),
      ((l.map fun p => (p.1, g p)).lookup c).isSome = (l.lookup c).isSome
  | [], _ => rfl
  | (k, v) :: t, c => by
    by_cases h : c = k
    · simp [List.lookup, h]
    · have hb : (c == k) = false := beq_eq_false_iff_ne.2 h
      simp [List.lookup, hb, lookup_map_summary_isSome g t c]

/-- Filtering with the content filter is idempotent. -/
theorem filter_keepLunchB_idem (reviews : List Review) :
    (reviews.filter keepLunchB).filter keepLunchB
      = reviews.filter keepLunchB := by
  rw [List.filter_filter]
  congr 1
  funext a
  rw [Bool.and_self]

/-- C6: a review whose description contains the off-topic marker is
irrelevant to (i.e. pre-filtering it away does not change) the
Top-Posts Ranking and the Posts Table, and is not counted in
`school_lunch_reviews`; but its scored foods enter the Category
Statistics and its point enters the Cumulative Time Series. -/
theorem marker_filter_asymmetry (reviews : List Review) :
    (∀ limit, get_top_posts reviews limit
        = get_top_posts (reviews.filter keepLunchB) limit) ∧
    prepare_posts_table reviews
        = prepare_posts_table (reviews.filter keepLunchB) ∧
    (calculate_overall_metrics reviews).school_lunch_reviews
        = (reviews.filter keepLunchB).length ∧
    (∀ r ∈ reviews, isTexasRoadhouse r.description = true →
      ∀ f ∈ r.foods, ∀ s : ℚ, f.score = some s →
        ((calculate_category_stats reviews).lookup
            (f.category.getD "other")).isSome = true) ∧
    (∀ r ∈ reviews, isTexasRoadhouse r.description = true →
      truthyCT r = true →
      ∃ p ∈ calculate_cumulative_stats reviews, p.timestamp = keyCT r) := by
  refine ⟨?_, ?_, rfl, ?_, ?_⟩
  · intro limit
    unfold get_top_posts
    rw [filter_keepLunchB_idem]
  · unfold prepare_posts_table
    rw [filter_keepLunchB_idem]
  · intro r hr _ f hf s hs
    unfold calculate_category_stats
    rw [lookup_map_summary_isSome]
    unfold collectScores
    exact lookup_outerFold_scored reviews [] r f s hr hf hs
  · intro r hr _ ht
    have h1 : r ∈ reviews.filter truthyCT := List.mem_filter.2 ⟨hr, ht⟩
    have h2 : r ∈ List.insertionSort reviewLe (reviews.filter truthyCT) :=
      (List.perm_insertionSort reviewLe _).mem_iff.2 h1
    have h3 : keyCT r
        ∈ (List.insertionSort reviewLe (reviews.filter truthyCT)).map keyCT :=
      List.mem_map_of_mem keyCT h2
    rw [← map_timestamp_buildPoints 0 0 0 0] at h3
    obtain ⟨p, hp, he⟩ := List.mem_map.1 h3
    exact ⟨p, hp, he⟩

/-- Marker review with a scored food and another plain review. -/
def c6m : Review :=
  { post_id := some "c6m"
    create_time := some 50
    description := "lunch at texas roadhouse"
    foods := [{ name := "roll", score := some 7, category := some "bread" }] }

def c6s : Review := { post_id := some "c6s", create_time := some 60 }

/-- Witness for C6 at a concrete input containing a marker review. -/
theorem marker_filter_asymmetry_witness :
    get_top_posts [c6m, c6s] 6
        = get_top_posts ([c6m, c6s].filter keepLunchB) 6 ∧
    prepare_posts_table [c6m, c6s]
        = prepare_posts_table ([c6m, c6s].filter keepLunchB) ∧
    (calculate_overall_metrics [c6m, c6s]).school_lunch_reviews
        = ([c6m, c6s].filter keepLunchB).length ∧
    ((calculate_category_stats [c6m, c6s]).lookup "bread").isSome = true ∧
    ∃ p ∈ calculate_cumulative_stats [c6m, c6s], p.timestamp = keyCT c6m := by
  have h := marker_filter_asymmetry [c6m, c6s]
  refine ⟨h.1 6, h.2.1, h.2.2.1, ?_, ?_⟩
  · exact h.2.2.2.1 c6m (by decide) (by decide)
      { name := "roll", score := some 7, category := some "bread" }
      (by decide) 7 (by decide)
  · exact h.2.2.2.2 c6m (by decide) (by decide) (by decide)

/-- Rewriting the first occurrence of `latest` changes exactly that one
list cell, to `mutateFoodNames latest`. -/
theorem setFirstEq_decomp :
    ∀ (latest : Review) (l : List Review), latest ∈ l →
      ∃ pre post, l = pre ++ latest :: post ∧
        setFirstEq latest l = pre ++ mutateFoodNames latest :: post
  | _, [], h => absurd h (List.not_mem_nil _)
  | latest, r :: rest, h => by
    by_cases hr : r = latest
    · subst hr
      exact ⟨[], rest, rfl, by simp [setFirstEq]⟩
    · have hmem : latest ∈ rest := by
        rcases List.mem_cons.1 h with h1 | h1
        · exact absurd h1.symm hr
        · exact h1
      obtain ⟨pre, post, e1, e2⟩ := setFirstEq_decomp latest rest hmem
      exact ⟨r :: pre, post, by rw [e1]; rfl,
        by rw [setFirstEq, if_neg hr, e2]; rfl⟩

/-- C9: running the pipeline leaves the review list unchanged when no
review survives the projector's filter; otherwise it changes exactly
one cell — the selected latest review — and inside it only the `name`
of each food is rewritten, to its sentence-case form; the mutated
review is the one the projector reports. -/
theorem pipeline_mutation_frame (reviews : List Review) (posts : List Post) :
    (latestOf reviews = none → reviewsAfterPipeline reviews = reviews) ∧
    ∀ latest, latestOf reviews = some latest →
      ∃ pre post,
        reviews = pre ++ latest :: post ∧
        reviewsAfterPipeline reviews = pre ++ mutateFoodNames latest :: post ∧
        (mutateFoodNames latest).post_id = latest.post_id ∧
        (mutateFoodNames latest).create_time = latest.create_time ∧
        (mutateFoodNames latest).day_number = latest.day_number ∧
        (mutateFoodNames latest).description = latest.description ∧
        (mutateFoodNames latest).stats = latest.stats ∧
        (mutateFoodNames latest).needs_review = latest.needs_review ∧
        (mutateFoodNames latest).foods.length = latest.foods.length ∧
        (∀ k f, latest.foods.get? k = some f →
          (mutateFoodNames latest).foods.get? k
            = some ⟨sentence_case f.name, f.score, f.category⟩) ∧
        ∀ out, get_latest_review reviews posts = some out →
          out.post_id = latest.post_id ∧
          out.foods = (mutateFoodNames latest).foods := by
  constructor
  · intro h
    unfold reviewsAfterPipeline
    rw [h]
  · intro latest hl
    have hsorted : latest
        ∈ List.insertionSort reviewGe (latestFiltered reviews) := by
      unfold latestOf at hl
      exact List.mem_of_mem_head? hl
    have hmem : latest ∈ reviews :=
      (List.mem_filter.1
        ((List.perm_insertionSort reviewGe _).mem_iff.1 hsorted)).1
    obtain ⟨pre, post, e1, e2⟩ := setFirstEq_decomp latest reviews hmem
    refine ⟨pre, post, e1, ?_, rfl, rfl, rfl, rfl, rfl, rfl,
      List.length_map _ _, ?_, ?_⟩
    · unfold reviewsAfterPipeline
      rw [hl]
      exact e2
    · intro k f hk
      have hfoods : (mutateFoodNames latest).foods
          = latest.foods.map fun g => { g with name := sentence_case g.name } :=
        rfl
      rw [hfoods, List.get?_map, hk]
      rfl
    · intro out hout
      unfold get_latest_review at hout
      rw [hl] at hout
      dsimp only at hout
      cases hout
      exact ⟨rfl, rfl⟩

/-- Reviews for the C9 witness: the later one carries a food whose
name gets rewritten. -/
def c9a : Review := { post_id := some "c9a", create_time := some 10 }

def c9b : Review :=
  { post_id := some "c9b"
    create_time := some 20
    foods := [{ name := "TACO day" }] }

/-- Witness for C9 at a concrete input. -/
theorem pipeline_mutation_frame_witness :
    ∃ pre post,
      [c9a, c9b] = pre ++ c9b :: post ∧
      reviewsAfterPipeline [c9a, c9b] = pre ++ mutateFoodNames c9b :: post ∧
      (mutateFoodNames c9b).post_id = c9b.post_id ∧
      (mutateFoodNames c9b).create_time = c9b.create_time ∧
      (mutateFoodNames c9b).day_number = c9b.day_number ∧
      (mutateFoodNames c9b).description = c9b.description ∧
      (mutateFoodNames c9b).stats = c9b.stats ∧
      (mutateFoodNames c9b).needs_review = c9b.needs_review ∧
      (mutateFoodNames c9b).foods.length = c9b.foods.length ∧
      (∀ k f, c9b.foods.get? k = some f →
        (mutateFoodNames c9b).foods.get? k
          = some ⟨sentence_case f.name, f.score, f.category⟩) ∧
      ∀ out, get_latest_review [c9a, c9b] [] = some out →
        out.post_id = c9b.post_id ∧
        out.foods = (mutateFoodNames c9b).foods :=
  (pipeline_mutation_frame [c9a, c9b] []).2 c9b (by decide)
